import Mathlib

/-!
Verification of the color derivation and validation engine of the
synthwave84 Zed theme generator (`scripts/theme.py`).

Conventions of the shallow embedding:
* Python strings are `List Char`; Python floats are idealized as exact
  rationals `ℚ` (the only non-rational operation, the WCAG gamma curve
  `x ** 2.4`, is kept as an explicit function parameter `g24 : ℚ → ℚ`,
  so every theorem holds for every choice of that curve).
* Python exceptions (`KeyError`, `ValueError` from `int(..., 16)`) are
  modelled by `Option`: `none` is a raised exception.
* Python dicts are association lists; `dictSet` mirrors Python's
  insert-or-update-in-place semantics, so key order matches CPython.
-/

set_option maxHeartbeats 1000000
set_option maxRecDepth 4000

abbrev Str := List Char

/-- Python builtin `max` on two exact rationals. -/
def pyMax (a b : ℚ) : ℚ := if a ≤ b then b else a

/-- Python builtin `min` on two exact rationals. -/
def pyMin (a b : ℚ) : ℚ := if b ≤ a then b else a

/-- Value of a hex digit character, `none` when the character is not a hex
digit (models the `ValueError` of `int(s, 16)` on bad input). -/
def hexDigitVal (c : Char) : Option ℕ :=
  if 48 ≤ c.toNat ∧ c.toNat ≤ 57 then some (c.toNat - 48)
  else if 97 ≤ c.toNat ∧ c.toNat ≤ 102 then some (c.toNat - 87)
  else if 65 ≤ c.toNat ∧ c.toNat ≤ 70 then some (c.toNat - 55)
  else none

def parseHexAux : List Char → ℕ → Option ℕ
  | [], acc => some acc
  | c :: t, acc =>
    match hexDigitVal c with
    | some v => parseHexAux t (acc * 16 + v)
    | none => none

/-- Model of Python `int(s, 16)` on a plain string of hex digits: `none`
when the string is empty or holds a non-digit (an exception in Python). -/
def parseHex (s : Str) : Option ℕ :=
  if s = [] then none else parseHexAux s 0

/-- Lowercase hex digit character for a value below 16. -/
def hexChar (n : ℕ) : Char :=
  if n < 10 then Char.ofNat (48 + n) else Char.ofNat (87 + n)

def natToHexAux : ℕ → ℕ → List Char
  | 0, _ => []
  | fuel + 1, n =>
    if n < 16 then [hexChar n] else natToHexAux fuel (n / 16) ++ [hexChar (n % 16)]

/-- Lowercase hex representation of a natural number, no padding. -/
def natToHex (n : ℕ) : List Char := natToHexAux (n + 1) n

/-- Model of the Python format spec `{n:02x}`: lowercase hex, zero padded
to width two (a negative number keeps its sign, as in Python). -/
def intToHex02 (n : ℤ) : Str :=
  if 0 ≤ n then
    (if (natToHex n.toNat).length < 2 then '0' :: natToHex n.toNat else natToHex n.toNat)
  else '-' :: natToHex (-n).toNat

/-- `rgb_to_hex` from `theme.py`: a hash sign followed by the three
channels each rendered through the 02x format spec. -/
def rgb_to_hex (rgb : ℤ × ℤ × ℤ) : Str :=
  '#' :: (intToHex02 rgb.1 ++ intToHex02 rgb.2.1 ++ intToHex02 rgb.2.2)

/-- `hex_to_rgb` from `theme.py`: strip leading `#`s, keep the first six
characters, parse the three two-character slices. `none` models the
`ValueError` Python raises on malformed input. -/
def hex_to_rgb (s : Str) : Option (ℕ × ℕ × ℕ) :=
  let h := (s.dropWhile (fun c => c = '#')).take 6
  match parseHex (h.take 2), parseHex ((h.drop 2).take 2), parseHex ((h.drop 4).take 2) with
  | some r, some g, some b => some (r, g, b)
  | _, _, _ => none

/-- Pure HSL conversion of an RGB triple, the body of `hex_to_hsl` from
`theme.py` (hue in degrees, saturation and lightness as percentages). -/
def hslOfRgb (rgb : ℕ × ℕ × ℕ) : ℚ × ℚ × ℚ :=
  let r : ℚ := rgb.1 / 255
  let g : ℚ := rgb.2.1 / 255
  let b : ℚ := rgb.2.2 / 255
  let mx := pyMax r (pyMax g b)
  let mn := pyMin r (pyMin g b)
  let l := (mx + mn) / 2
  if mx = mn then (0, 0, l * 100)
  else
    let d := mx - mn
    let s := if l > 1 / 2 then d / (2 - mx - mn) else d / (mx + mn)
    let h := if mx = r then (g - b) / d + (if g < b then 6 else 0)
      else if mx = g then (b - r) / d + 2
      else (r - g) / d + 4
    ((h / 6) * 360, s * 100, l * 100)

/-- `hex_to_hsl` from `theme.py`. -/
def hex_to_hsl (s : Str) : Option (ℚ × ℚ × ℚ) :=
  (hex_to_rgb s).map hslOfRgb

/-- Python `t % 1` on an exact rational (result always in `[0, 1)`). -/
def pyFract (q : ℚ) : ℚ := q - ⌊q⌋

/-- Python `int(q)`: truncation toward zero. -/
def pyInt (q : ℚ) : ℤ := if 0 ≤ q then ⌊q⌋ else -⌊-q⌋

/-- The inner `hue2rgb` helper of `hsl_to_hex` from `theme.py`. -/
def hue2rgb (p q t0 : ℚ) : ℚ :=
  let t := pyFract t0
  if t < 1 / 6 then p + (q - p) * 6 * t
  else if t < 1 / 2 then q
  else if t < 2 / 3 then p + (q - p) * (2 / 3 - t) * 6
  else p

/-- The local `q` of `hsl_to_hex` from `theme.py` (arguments are the
unit-scaled saturation and lightness). -/
def hslQ (s' l' : ℚ) : ℚ :=
  if l' < 1 / 2 then l' * (1 + s') else l' + s' - l' * s'

/-- The local `p` of `hsl_to_hex` from `theme.py`. -/
def hslP (s' l' : ℚ) : ℚ := 2 * l' - hslQ s' l'

/-- `hsl_to_hex` from `theme.py`. -/
def hsl_to_hex (h s l : ℚ) : Str :=
  if s / 100 = 0 then
    rgb_to_hex (pyInt (l / 100 * 255), pyInt (l / 100 * 255), pyInt (l / 100 * 255))
  else
    rgb_to_hex
      (pyInt (hue2rgb (hslP (s / 100) (l / 100)) (hslQ (s / 100) (l / 100)) (h / 360 + 1 / 3) * 255),
       pyInt (hue2rgb (hslP (s / 100) (l / 100)) (hslQ (s / 100) (l / 100)) (h / 360) * 255),
       pyInt (hue2rgb (hslP (s / 100) (l / 100)) (hslQ (s / 100) (l / 100)) (h / 360 - 1 / 3) * 255))

/-- One linearized channel of the WCAG relative luminance from `theme.py`;
`g24` stands for the gamma curve `x ↦ x ** 2.4` of the source, kept
abstract because its exponent is irrational. -/
def lumChannel (g24 : ℚ → ℚ) (c : ℕ) : ℚ :=
  let x : ℚ := c / 255
  if x ≤ 0.03928 then x / 12.92 else g24 ((x + 0.055) / 1.055)

/-- `luminance` from `theme.py`. -/
def luminance (g24 : ℚ → ℚ) (rgb : ℕ × ℕ × ℕ) : ℚ :=
  0.2126 * lumChannel g24 rgb.1 + 0.7152 * lumChannel g24 rgb.2.1
    + 0.0722 * lumChannel g24 rgb.2.2

/-- `contrast_ratio` from `theme.py` (`none` models a raised exception on
unparsable colors). -/
def contrast_ratio (g24 : ℚ → ℚ) (c1 c2 : Str) : Option ℚ :=
  match hex_to_rgb c1, hex_to_rgb c2 with
  | some r1, some r2 =>
    let l1 := luminance g24 r1
    let l2 := luminance g24 r2
    some ((pyMax l1 l2 + 0.05) / (pyMin l1 l2 + 0.05))
  | _, _ => none

/-- `adjust_lightness` from `theme.py`. -/
def adjust_lightness (s : Str) (delta : ℚ) : Option Str :=
  (hex_to_hsl s).map (fun hsl => hsl_to_hex hsl.1 hsl.2.1 (pyMax 0 (pyMin 100 (hsl.2.2 + delta))))

/-- The `for _ in range(100)` search loop of `ensure_contrast` from
`theme.py`; fuel counts the remaining iterations, and exhaustion returns
the color at the final lightness exactly as the source's trailing
`return hsl_to_hex(h, s, l)` does. -/
def ecLoop (g24 : ℚ → ℚ) (bg : Str) (minr h s step : ℚ) : ℚ → ℕ → Option Str
  | l, 0 => some (hsl_to_hex h s l)
  | l, n + 1 =>
    let l' := pyMax 0 (pyMin 100 (l + step))
    let c := hsl_to_hex h s l'
    match contrast_ratio g24 c bg with
    | some cr => if minr ≤ cr then some c else ecLoop g24 bg minr h s step l' n
    | none => none

/-- `ensure_contrast` from `theme.py`. -/
def ensure_contrast (g24 : ℚ → ℚ) (fg bg : Str) ( min_ratio : ℚ) (direction : Str) :
    Option Str :=
  match contrast_ratio g24 fg bg, hex_to_hsl fg, hex_to_rgb bg with
  | some cr0, some hsl0, some bgRgb =>
    if min_ratio ≤ cr0 then some fg
    else
      let bg_lum := luminance g24 bgRgb
      let go_lighter : Bool :=
        (direction = "lighter".toList) ∨ (direction = "auto".toList ∧ bg_lum < 1 / 2)
      let step : ℚ := if go_lighter then 1 else -1
      ecLoop g24 bg min_ratio hsl0.1 hsl0.2.1 step hsl0.2.2 100
  | _, _, _ => none

/-- Association-list lookup, the model of Python `dict[k]` / `dict.get(k)`. -/
def dget {β : Type _} : List (Str × β) → Str → Option β
  | [], _ => none
  | (k', v) :: t, k => if k' = k then some v else dget t k

/-- `VARIANT_ADJUSTMENTS` from `theme.py`, as a dict of dicts. -/
def VARIANT_ADJUSTMENTS : List (Str × List (Str × ℚ)) :=
  [("soft".toList, [("lightness_delta".toList, 6), ("target_contrast".toList, 4.5)]),
   ("high_contrast".toList, [("lightness_delta".toList, -8), ("target_contrast".toList, 7)])]

/-- `derive_variant_color` from `theme.py`, generalized over the
adjustment table (the source reads the module-level constant
`VARIANT_ADJUSTMENTS`; threading it as a parameter makes the claim
"regardless of the table contents" statable). -/
def derive_variant_color_with (g24 : ℚ → ℚ) (tbl : List (Str × List (Str × ℚ)))
    (base_color bg_color variant : Str) : Option Str :=
  if variant = "classic".toList then some base_color
  else
    let adj := (dget tbl variant).getD []
    let delta := (dget adj "lightness_delta".toList).getD 0
    let target := (dget adj "target_contrast".toList).getD 4.5
    match adjust_lightness base_color delta with
    | some adjusted => ensure_contrast g24 adjusted bg_color target "auto".toList
    | none => none

/-- `derive_variant_color` from `theme.py`, with the source's constant table. -/
def derive_variant_color (g24 : ℚ → ℚ) (base_color bg_color variant : Str) : Option Str :=
  derive_variant_color_with g24 VARIANT_ADJUSTMENTS base_color bg_color variant


/-- JSON-like values, the shape of the theme artifact and of template data. -/
inductive Json where
  | null
  | bool (b : Bool)
  | num (q : ℚ)
  | str (s : Str)
  | arr (elems : List Json)
  | obj (fields : List (Str × Json))

instance : Inhabited Json := ⟨Json.null⟩

theorem Json.sizeOf_lt_of_mem_obj {fs : List (Str × Json)} {kv : Str × Json}
    (h : kv ∈ fs) : sizeOf kv.2 < sizeOf (Json.obj fs) := by
  have h1 := List.sizeOf_lt_of_mem h
  cases kv with
  | mk k v => simp at h1 ⊢; omega

theorem Json.sizeOf_lt_of_mem_arr {l : List Json} {v : Json}
    (h : v ∈ l) : sizeOf v < sizeOf (Json.arr l) := by
  have h1 := List.sizeOf_lt_of_mem h
  simp; omega

/-- Whether a string holds the opening template marker, Python
`"\x7b\x7b" in value`. -/
def hasOpenMarker : Str → Bool
  | [] => false
  | c :: t => (decide (c = '{') && decide (t.head? = some '{')) || hasOpenMarker t

/-- `resolve_template` from `theme.py`: the left-to-right, non-overlapping
substitution performed by `re.sub` with the pattern
`\x7b\x7b([^\x7d]+)\x7d\x7d` and the replacer
`colors.get(m.group(1), m.group(0))`, written as a direct scanner: at a
double brace, the greedy run of non-closing-brace characters followed by a
double closing brace is a match (replaced through the table, or kept
verbatim when the key is absent); otherwise the scan moves one character
right, and the text emitted for a match is never rescanned. -/
def resolve_template (colors : List (Str × Str)) : Str → Str
  | [] => []
  | c :: t =>
    if c = '{' ∧ t.head? = some '{' then
      let rest := t.tail
      let key := rest.takeWhile (fun x => x ≠ '}')
      let after := rest.dropWhile (fun x => x ≠ '}')
      if key ≠ [] ∧ after.head? = some '}' ∧ after.tail.head? = some '}' then
        (match dget colors key with
          | some v => v
          | none => '{' :: '{' :: (key ++ ['}', '}'])) ++
          resolve_template colors after.tail.tail
      else c :: resolve_template colors t
    else c :: resolve_template colors t
termination_by s => s.length
decreasing_by
  · have h1 : (t.tail.dropWhile (fun x => x ≠ '}')).length ≤ t.tail.length :=
      (List.dropWhile_sublist _).length_le
    have h2 : t.tail.length ≤ t.length := by
      cases t <;> simp
    simp only [List.length_cons]
    have h3 : (t.tail.dropWhile (fun x => x ≠ '}')).tail.tail.length ≤
        (t.tail.dropWhile (fun x => x ≠ '}')).length := by
      cases h : t.tail.dropWhile (fun x => x ≠ '}') with
      | nil => simp
      | cons a l =>
        cases l
        · simp
        · simp
          omega
    omega
  · simp
  · simp

/-- `resolve_value` from `theme.py`: strings holding the marker go through
`resolve_template`, mappings and sequences recurse, everything else is
returned unchanged. -/
def resolve_value (v : Json) (colors : List (Str × Str)) : Json :=
  match v with
  | .str s => if hasOpenMarker s then .str (resolve_template colors s) else .str s
  | .obj fs => .obj (fs.attach.map (fun kv => (kv.1.1, resolve_value kv.1.2 colors)))
  | .arr l => .arr (l.attach.map (fun x => resolve_value x.1 colors))
  | x => x
termination_by sizeOf v
decreasing_by
  · exact Json.sizeOf_lt_of_mem_obj kv.2
  · exact Json.sizeOf_lt_of_mem_arr x.2

/-- Python dict assignment `d[k] = v`: update in place when the key is
present, append otherwise (preserves CPython key order). -/
def dictSet {β : Type _} : List (Str × β) → Str → β → List (Str × β)
  | [], k, v => [(k, v)]
  | (k', v') :: t, k, v => if k' = k then (k, v) :: t else (k', v') :: dictSet t k v

/-- A Python dict literal / comprehension built from a sequence of
key-value pairs: later occurrences of a key override earlier ones. -/
def mkDict {β : Type _} (ps : List (Str × β)) : List (Str × β) :=
  ps.foldl (fun d kv => dictSet d kv.1 kv.2) []

/-- Per-variant metadata of the base template document (`variants.<id>`). -/
structure VariantCfg where
  name : Str
  line_number_alpha : Str
deriving DecidableEq

/-- The base template document (`src/base.json`), typed after its logical
shape from the spec; `schema` stands for the `$schema` field and
`syn_colors`, `syn_styles`, `syn_special` for the `syntax_colors`,
`syntax_styles`, `syntax_special` tables of the source (renamed because
that word is reserved in Lean). -/
structure BaseTemplate where
  schema : Str
  name : Str
  author : Str
  ui : List (Str × Json)
  terminal : List (Str × Json)
  syn_colors : List (Str × List Str)
  syn_styles : List (Str × List Str)
  syn_special : List (Str × Str)
  variants : List (Str × VariantCfg)

/-- The palette document (`palette.json`), typed after its logical shape;
`syn` stands for the `syntax` group (reserved word in Lean). -/
structure Palette where
  background : List (Str × Str)
  foreground : List (Str × Str)
  border : List (Str × Str)
  syn : List (Str × Str)
  terminal : List (Str × Str)
  players : List Str
  variants : List (Str × List (Str × Str))

/-- Whether a key starts with the reserved metadata marker `$`. -/
def startsDollar (k : Str) : Bool := k.head? = some '$'

/-- `get_variant_colors` from `theme.py`. -/
def get_variant_colors (palette : Palette) (variant : Str) : List (Str × Str) :=
  let base := mkDict (
    (palette.background.map (fun kv => ("background.".toList ++ kv.1, kv.2))) ++
    (palette.foreground.map (fun kv => ("foreground.".toList ++ kv.1, kv.2))) ++
    (palette.border.map (fun kv => ("border.".toList ++ kv.1, kv.2))) ++
    ((palette.syn.filter (fun kv => !startsDollar kv.1)).map
      (fun kv => ("syntax.".toList ++ kv.1, kv.2))) ++
    (palette.terminal.map (fun kv => ("terminal.".toList ++ kv.1, kv.2))))
  if variant = "classic".toList then base
  else
    let overrides := (dget palette.variants variant).getD []
    mkDict (base ++ (overrides.filter (fun kv => !startsDollar kv.1)))

/-- `generate_players` from `theme.py`. -/
def generate_players (palette : Palette) : List Json :=
  palette.players.map (fun c => Json.obj
    [("cursor".toList, Json.str c),
     ("background".toList, Json.str c),
     ("selection".toList, Json.str (c ++ "40".toList))])

/-- Lexicographic comparison of strings by code point, Python `<=`. -/
def strLe : Str → Str → Bool
  | [], _ => true
  | _ :: _, [] => false
  | a :: as, b :: bs =>
    if a.toNat < b.toNat then true
    else if b.toNat < a.toNat then false
    else strLe as bs

def insertStr (x : Str) : List Str → List Str
  | [] => [x]
  | y :: t => if strLe x y then x :: y :: t else y :: insertStr x t

/-- Model of Python `sorted` on a list of strings (insertion sort; on the
duplicate-free lists it is applied to, any correct sort agrees). -/
def sortStr (l : List Str) : List Str := l.foldr insertStr []

/-- `generate_syntax` from `theme.py` (renamed: `syntax` is reserved in
Lean). The Python expression
`token_styles.get(token) if token_styles.get(token) != "normal" else "normal"`
evaluates to `token_styles.get(token)` in every case, and is modelled as
such. -/
def generate_syn_map (base : BaseTemplate) (colors : List (Str × Str)) :
    List (Str × Json) :=
  let token_colors := mkDict ((base.syn_colors.filter (fun kv => !startsDollar kv.1)).flatMap
    (fun kv => kv.2.map (fun tok => (tok, kv.1))))
  let token_styles := mkDict ((base.syn_styles.filter (fun kv => !startsDollar kv.1)).flatMap
    (fun kv => kv.2.map (fun tok => (tok, kv.1))))
  let get_color := fun t =>
    if dget token_colors t = some "foreground".toList then
      dget colors "foreground.primary".toList
    else dget colors ("syntax.".toList ++ (dget token_colors t).getD "type".toList)
  let tokens := sortStr ((token_colors.map Prod.fst ++ token_styles.map Prod.fst).dedup)
  let entry := fun t => Json.obj
    [("color".toList, match get_color t with | some c => Json.str c | none => Json.null),
     ("font_style".toList,
       match dget token_styles t with | some st => Json.str st | none => Json.null),
     ("font_weight".toList,
       if dget token_styles t = some "bold".toList then Json.num 700 else Json.null)]
  (base.syn_special.filter (fun kv => !startsDollar kv.1)).foldl
    (fun m kv => dictSet m kv.1
      (Json.obj [("color".toList, Json.str (resolve_template colors kv.2))]))
    (tokens.map (fun t => (t, entry t)))

/-- One variant record of the generated artifact. -/
structure Theme where
  name : Str
  appearance : Str
  style : List (Str × Json)

/-- The generated theme artifact; `schema` stands for `$schema`. -/
structure ThemeArtifact where
  schema : Str
  name : Str
  author : Str
  themes : List Theme

/-- `generate_variant` from `theme.py`; `none` models the `KeyError`
raised when a required variant config or color-table entry is missing. -/
def generate_variant (base : BaseTemplate) (palette : Palette) (variant_key : Str) :
    Option Theme :=
  let colors := get_variant_colors palette variant_key
  match dget base.variants variant_key with
  | none => none
  | some config =>
    let ui := base.ui.map (fun kv => (kv.1, resolve_value kv.2 colors))
    let terminal := base.terminal.map
      (fun kv => ("terminal.".toList ++ kv.1, resolve_value kv.2 colors))
    let syn := generate_syn_map base colors
    match dget colors "background.deep".toList, dget colors "foreground.primary".toList,
        dget colors "syntax.type".toList, dget colors "border.default".toList,
        dget colors "border.focused".toList, dget colors "background.surface".toList,
        dget colors "background.elevated".toList, dget colors "background.active".toList with
    | some bgDeep, some fgPrim, some synType, some borDef, some borFoc, some bgSurf,
        some bgElev, some bgAct =>
      some
        { name := config.name,
          appearance := "dark".toList,
          style := mkDict (
          [("background".toList, Json.str bgDeep),
           ("foreground".toList, Json.str fgPrim),
           ("accent".toList, Json.str synType),
           ("border".toList, Json.str borDef),
           ("border.focused".toList, Json.str borFoc),
           ("elevated_surface.background".toList, Json.str bgSurf),
           ("surface.background".toList, Json.str bgSurf),
           ("element.background".toList, Json.str bgSurf),
           ("element.hover".toList, Json.str bgElev),
           ("element.active".toList, Json.str bgAct),
           ("element.selected".toList, Json.str bgAct),
           ("text".toList, Json.str fgPrim),
           ("editor.background".toList, Json.str bgSurf),
           ("editor.active_line.background".toList, Json.str bgElev),
           ("editor.line_number".toList, Json.str (fgPrim ++ config.line_number_alpha))]
          ++ ui ++ terminal
          ++ [("players".toList, Json.arr (generate_players palette)),
              ("syntax".toList, Json.obj syn)]) }
    | _, _, _, _, _, _, _, _ => none

/-- A Python list comprehension over fallible element computations:
`none` when any element raises. -/
def mapMOpt {α β : Type _} (f : α → Option β) : List α → Option (List β)
  | [] => some []
  | a :: t =>
    match f a, mapMOpt f t with
    | some b, some bs => some (b :: bs)
    | _, _ => none

/-- `VARIANT_KEYS` from `theme.py`. -/
def VARIANT_KEYS : List Str :=
  ["classic".toList, "soft".toList, "high_contrast".toList]

/-- `generate_theme` from `theme.py`. -/
def generate_theme (base : BaseTemplate) (palette : Palette) : Option ThemeArtifact :=
  (mapMOpt (generate_variant base palette) VARIANT_KEYS).map
    (fun ts => { schema := base.schema, name := base.name, author := base.author, themes := ts })

/-- The pass/fail record produced by every validation rule. -/
structure Result where
  ok : Bool
  message : Str
deriving DecidableEq

def Result.success (msg : Str) : Result := ⟨true, "OK: ".toList ++ msg⟩

def Result.failure (msg : Str) : Result := ⟨false, "FAIL: ".toList ++ msg⟩

def isHexDigitChar (c : Char) : Bool :=
  (48 ≤ c.toNat && c.toNat ≤ 57) || (97 ≤ c.toNat && c.toNat ≤ 102)
    || (65 ≤ c.toNat && c.toNat ≤ 70)

def hexColorCore (s : Str) : Bool :=
  match s with
  | '#' :: t => (decide (t.length = 6) || decide (t.length = 8)) && t.all isHexDigitChar
  | _ => false

/-- Python `re.match` of the anchored pattern
`^#[0-9a-fA-F]\x7b6\x7d([0-9a-fA-F]\x7b2\x7d)?$` (the second disjunct
mirrors Python's `$`, which also matches just before one trailing
newline). -/
def matchesColorPattern (s : Str) : Bool :=
  hexColorCore s || (decide (s.getLast? = some (Char.ofNat 10)) && hexColorCore s.dropLast)

/-- `find_colors` from `theme.py`: collect `(path, value)` for every
string value that starts with `#`, descending into mappings only. -/
def find_colors : Json → Str → List (Str × Str)
  | .obj fs, path =>
    fs.attach.flatMap (fun kv => find_colors kv.1.2 (path ++ '.' :: kv.1.1))
  | .str s, path => if s.head? = some '#' then [(path, s)] else []
  | _, _ => []
termination_by j _ => sizeOf j
decreasing_by exact Json.sizeOf_lt_of_mem_obj kv.2

def colorFailMsg (pc : Str × Str) : Str :=
  pc.1 ++ ": invalid ".toList ++ [Char.ofNat 39] ++ pc.2 ++ [Char.ofNat 39]

/-- `validate_colors` from `theme.py`. -/
def validate_colors (data : Json) : List Result :=
  let invalid := (find_colors data []).filter (fun pc => !matchesColorPattern pc.2)
  match (invalid.take 10).map (fun pc => Result.failure (colorFailMsg pc)) with
  | [] => [Result.success "All colors valid hex format".toList]
  | l => l

/-- Python `len`: defined on sequences, mappings and strings, a raised
`TypeError` (`none`) otherwise. -/
def pyLen : Json → Option ℕ
  | .arr l => some l.length
  | .obj fs => some fs.length
  | .str s => some s.length
  | _ => none

def natReprAux : ℕ → ℕ → List Char
  | 0, _ => []
  | fuel + 1, n =>
    if n < 10 then [Char.ofNat (48 + n)] else natReprAux fuel (n / 10) ++ [Char.ofNat (48 + n % 10)]

/-- Decimal rendering of a natural number, Python `str(n)` / `f"..."`. -/
def natRepr (n : ℕ) : Str := natReprAux (n + 1) n

/-- The single result `validate_players` emits for one variant whose
player value has length `n`. -/
def playerResult (name : Str) (n : ℕ) : Result :=
  if 8 ≤ n then Result.success (name ++ " has ".toList ++ natRepr n ++ " player colors".toList)
  else Result.failure (name ++ ": only ".toList ++ natRepr n ++ " players".toList)

/-- `validate_players` from `theme.py`: one result per variant, pass
exactly when `len(style.get("players", [])) >= 8`; `none` models the
`TypeError` when that value has no length. -/
def validate_players (data : ThemeArtifact) : Option (List Result) :=
  mapMOpt (fun t =>
    (pyLen ((dget t.style "players".toList).getD (Json.arr []))).map
      (fun n => playerResult t.name n)) data.themes

/-- Space-separated rendering of a list of keys. The Python source
interpolates a set literal here; only the pass/fail structure and the
branch conditions of `validate_consistency` are modelled faithfully, the
textual rendering of the offending key sets is abstracted. -/
def joinKeys (l : List Str) : Str := l.flatMap (fun k => k ++ [' '])

/-- `validate_consistency` from `theme.py`. -/
def validate_consistency (data : ThemeArtifact) : List Result :=
  match data.themes with
  | [] => [Result.success "Single theme".toList]
  | [_] => [Result.success "Single theme".toList]
  | t0 :: rest =>
    let base_keys := t0.style.map Prod.fst
    let errors := rest.flatMap (fun t =>
      let keys := t.style.map Prod.fst
      let missing := base_keys.dedup.filter (fun k => !keys.contains k)
      let extra := keys.dedup.filter (fun k => !base_keys.contains k)
      (if missing.isEmpty then [] else [t.name ++ ": missing ".toList ++ joinKeys missing]) ++
      (if extra.isEmpty then [] else [t.name ++ ": extra ".toList ++ joinKeys extra]))
    match errors.map Result.failure with
    | [] => [Result.success ("All ".toList ++ natRepr data.themes.length ++
        " variants consistent".toList)]
    | l => l

/-- Modelled from the spec: a string value reachable from a JSON value by
the walk `find_colors` actually performs (descending into mappings only),
together with the structural path accumulated along the way. -/
inductive ReachDictStr : Json → Str → Str → Prop
  | here (s : Str) : ReachDictStr (.str s) [] s
  | step {fs : List (Str × Json)} {k : Str} {v : Json} {rel s : Str} :
      (k, v) ∈ fs → ReachDictStr v rel s → ReachDictStr (.obj fs) ('.' :: k ++ rel) s

/-- Modelled from the spec: "every string value reachable by recursive
walk of the artifact" — the full recursive walk, descending into both
mappings and sequences. -/
inductive SpecReachableStr : Json → Str → Prop
  | str (s : Str) : SpecReachableStr (.str s) s
  | obj {fs : List (Str × Json)} {k : Str} {v : Json} {s : Str} :
      (k, v) ∈ fs → SpecReachableStr v s → SpecReachableStr (.obj fs) s
  | arr {l : List Json} {v : Json} {s : Str} :
      v ∈ l → SpecReachableStr v s → SpecReachableStr (.arr l) s



/-- Lowercase hex digit or decimal digit, the character class of the
pattern `^#[0-9a-f]\x7b6\x7d$`. -/
def isLowerHexChar (c : Char) : Bool :=
  (48 ≤ c.toNat && c.toNat ≤ 57) || (97 ≤ c.toNat && c.toNat ≤ 102)

/-- Matcher for `^#[0-9a-f]\x7b6\x7d$`: a 7-character string, `#` then six
lowercase hex digits. -/
def matchesLowerHex6 (s : Str) : Bool :=
  match s with
  | '#' :: t => decide (t.length = 6) && t.all isLowerHexChar
  | _ => false

/-- A string `hex_to_rgb` parses without raising (the domain on which the
color pipeline is exception-free). -/
def validHex (s : Str) : Bool := (hex_to_rgb s).isSome

/-- The clamped lightness iteration of the `ensure_contrast` search loop,
run for `n` steps. -/
def iterLight (step : ℚ) : ℚ → ℕ → ℚ
  | l, 0 => l
  | l, n + 1 => iterLight step (pyMax 0 (pyMin 100 (l + step))) n


/-- A concrete palette used to exhibit satisfiable hypotheses. -/
def samplePalette : Palette :=
  { background := [("deep".toList, "#241b2f".toList), ("surface".toList, "#262335".toList),
      ("elevated".toList, "#2a2139".toList), ("active".toList, "#34294f".toList)],
    foreground := [("primary".toList, "#ffffff".toList)],
    border := [("default".toList, "#495495".toList), ("focused".toList, "#880088".toList)],
    syn := [("type".toList, "#fe4450".toList)],
    terminal := [],
    players := [],
    variants := [("soft".toList, []), ("high_contrast".toList, [])] }

/-- A concrete base template used to exhibit satisfiable hypotheses. -/
def sampleBase : BaseTemplate :=
  { schema := "s".toList, name := "n".toList, author := "a".toList,
    ui := [], terminal := [], syn_colors := [], syn_styles := [], syn_special := [],
    variants := [("classic".toList, VariantCfg.mk "Classic".toList "b3".toList),
      ("soft".toList, VariantCfg.mk "Soft".toList "99".toList),
      ("high_contrast".toList, VariantCfg.mk "HC".toList "cc".toList)] }


/-! ## Generic helper lemmas -/

theorem intToHex02_spec : ∀ n : ℕ, n < 256 →
    parseHex (intToHex02 (n : ℤ)) = some n ∧ (intToHex02 (n : ℤ)).length = 2 ∧
      ((intToHex02 (n : ℤ)).all fun c => decide (c ≠ '#')) = true := by decide

theorem length_eq_two_of {α : Type _} {l : List α} (h : l.length = 2) :
    ∃ a b, l = [a, b] := by
  match l, h with
  | [a, b], _ => exact ⟨a, b, rfl⟩

theorem hex_rgb_roundtrip_core (r g b : ℕ) (hr : r < 256) (hg : g < 256) (hb : b < 256) :
    hex_to_rgb (rgb_to_hex ((r : ℤ), (g : ℤ), (b : ℤ))) = some (r, g, b) := by
  obtain ⟨pr, lr, ar⟩ := intToHex02_spec r hr
  obtain ⟨pg, lg, ag⟩ := intToHex02_spec g hg
  obtain ⟨pb, lb, ab⟩ := intToHex02_spec b hb
  obtain ⟨a0, a1, ha⟩ := length_eq_two_of lr
  obtain ⟨b0, b1, hbb⟩ := length_eq_two_of lg
  obtain ⟨c0, c1, hc⟩ := length_eq_two_of lb
  have ha0 : ¬(a0 = '#') := by
    have := ar
    rw [ha] at this
    simp [List.all_cons] at this
    exact this.1
  rw [rgb_to_hex]
  simp only [ha, hbb, hc] at pr pg pb ⊢
  rw [hex_to_rgb]
  simp only [List.cons_append, List.dropWhile_cons]
  simp only [decide_eq_true_eq, if_pos rfl, if_neg ha0]
  simp only [List.take, List.drop]
  simp_all

/-- C6: converting an in-range integer RGB triple to hex and back is the
identity. -/
theorem hex_rgb_roundtrip (r g b : ℕ) (hr : r < 256) (hg : g < 256) (hb : b < 256) :
    hex_to_rgb (rgb_to_hex ((r : ℤ), (g : ℤ), (b : ℤ))) = some (r, g, b) :=
  hex_rgb_roundtrip_core r g b hr hg hb

/-- C6 witness. -/
theorem hex_rgb_roundtrip_witness :
    (18 : ℕ) < 256 ∧ (52 : ℕ) < 256 ∧ (86 : ℕ) < 256 ∧
      hex_to_rgb (rgb_to_hex ((18 : ℤ), (52 : ℤ), (86 : ℤ))) = some (18, 52, 86) :=
  ⟨by decide, by decide, by decide, hex_rgb_roundtrip 18 52 86 (by decide) (by decide) (by decide)⟩

/-- C7: the classic variant derivation is the identity on the base color,
for every gamma curve, background and adjustment table (the `some` wraps
the source's plain return, exceptions being modelled by `none`). -/
theorem derive_variant_classic (g24 : ℚ → ℚ) (tbl : List (Str × List (Str × ℚ)))
    (c bg : Str) :
    derive_variant_color_with g24 tbl c bg "classic".toList = some c ∧
      derive_variant_color g24 c bg "classic".toList = some c := by
  constructor <;> simp [derive_variant_color, derive_variant_color_with]

/-- C10: with fewer than two variants, consistency validation returns the
single fixed success result. -/
theorem validate_consistency_single (art : ThemeArtifact) (h : art.themes.length < 2) :
    validate_consistency art = [Result.success "Single theme".toList] := by
  rcases art with ⟨sch, nm, au, themes⟩
  match themes, h with
  | [], _ => rfl
  | [t], _ => rfl
  | t1 :: t2 :: rest, h => simp at h; omega

/-- C10 witness. -/
theorem validate_consistency_single_witness :
    (ThemeArtifact.mk [] [] [] []).themes.length < 2 ∧
      validate_consistency (ThemeArtifact.mk [] [] [] []) =
        [Result.success "Single theme".toList] :=
  ⟨by decide, validate_consistency_single _ (by decide)⟩

/-! ## Well-formedness of `hsl_to_hex` output (C9) -/

theorem pyFract_nonneg (q : ℚ) : 0 ≤ pyFract q := by
  rw [pyFract]
  have := Int.floor_le q
  linarith

theorem pyFract_lt_one (q : ℚ) : pyFract q < 1 := by
  rw [pyFract]
  have := Int.lt_floor_add_one q
  linarith

theorem hue2rgb_mem (p q t : ℚ) (h0 : 0 ≤ p) (h1 : p ≤ q) (h2 : q ≤ 1) :
    0 ≤ hue2rgb p q t ∧ hue2rgb p q t ≤ 1 := by
  have hf0 := pyFract_nonneg t
  have hf1 := pyFract_lt_one t
  rw [hue2rgb]
  split_ifs with ha hb hc
  · constructor <;> nlinarith
  · constructor <;> nlinarith
  · constructor <;> nlinarith
  · constructor <;> nlinarith

theorem pyInt_byte (x : ℚ) (h0 : 0 ≤ x) (h1 : x ≤ 1) :
    0 ≤ pyInt (x * 255) ∧ pyInt (x * 255) ≤ 255 := by
  have hx0 : (0 : ℚ) ≤ x * 255 := by nlinarith
  rw [pyInt, if_pos hx0]
  constructor
  · exact Int.floor_nonneg.mpr hx0
  · have hle : x * 255 ≤ (255 : ℚ) := by nlinarith
    calc ⌊x * 255⌋ ≤ ⌊(255 : ℚ)⌋ := Int.floor_le_floor hle
    _ = 255 := by norm_num

theorem intToHex02_lower : ∀ n : ℕ, n < 256 →
    (intToHex02 (n : ℤ)).length = 2 ∧ ((intToHex02 (n : ℤ)).all isLowerHexChar) = true := by
  decide

theorem lower_imp_hexDigit (c : Char) (h : isLowerHexChar c = true) :
    isHexDigitChar c = true := by
  simp [isLowerHexChar] at h
  simp [isHexDigitChar]
  omega

theorem rgb_to_hex_wellformed (x y z : ℤ)
    (hx0 : 0 ≤ x) (hx1 : x ≤ 255) (hy0 : 0 ≤ y) (hy1 : y ≤ 255)
    (hz0 : 0 ≤ z) (hz1 : z ≤ 255) :
    matchesLowerHex6 (rgb_to_hex (x, y, z)) = true ∧
      (rgb_to_hex (x, y, z)).length = 7 ∧
      matchesColorPattern (rgb_to_hex (x, y, z)) = true := by
  obtain ⟨nx, rfl⟩ : ∃ n : ℕ, x = (n : ℤ) := ⟨x.toNat, (Int.toNat_of_nonneg hx0).symm⟩
  obtain ⟨ny, rfl⟩ : ∃ n : ℕ, y = (n : ℤ) := ⟨y.toNat, (Int.toNat_of_nonneg hy0).symm⟩
  obtain ⟨nz, rfl⟩ : ∃ n : ℕ, z = (n : ℤ) := ⟨z.toNat, (Int.toNat_of_nonneg hz0).symm⟩
  have hxlt : nx < 256 := by omega
  have hylt : ny < 256 := by omega
  have hzlt : nz < 256 := by omega
  obtain ⟨lx, ax⟩ := intToHex02_lower nx hxlt
  obtain ⟨ly, ay⟩ := intToHex02_lower ny hylt
  obtain ⟨lz, az⟩ := intToHex02_lower nz hzlt
  obtain ⟨a0, a1, ha⟩ := length_eq_two_of lx
  obtain ⟨b0, b1, hbb⟩ := length_eq_two_of ly
  obtain ⟨c0, c1, hc⟩ := length_eq_two_of lz
  rw [ha] at ax
  rw [hbb] at ay
  rw [hc] at az
  simp only [List.all_cons, List.all_nil, Bool.and_true, Bool.and_eq_true] at ax ay az
  simp only [rgb_to_hex, ha, hbb, hc]
  refine ⟨?_, ?_, ?_⟩
  · simp [matchesLowerHex6, ax.1, ax.2, ay.1, ay.2, az.1, az.2]
  · simp
  · have d := fun c h => lower_imp_hexDigit c h
    simp [matchesColorPattern, hexColorCore,
      d a0 ax.1, d a1 ax.2, d b0 ay.1, d b1 ay.2, d c0 az.1, d c1 az.2]

theorem hslPQ_bounds (s' l' : ℚ) (h1 : 0 ≤ s') (h2 : s' ≤ 1) (h3 : 0 ≤ l') (h4 : l' ≤ 1) :
    0 ≤ hslP s' l' ∧ hslP s' l' ≤ hslQ s' l' ∧ hslQ s' l' ≤ 1 := by
  rw [hslP, hslQ]
  split_ifs with h
  · refine ⟨?_, ?_, ?_⟩ <;> nlinarith
  · refine ⟨?_, ?_, ?_⟩ <;> nlinarith

/-- C9: for any hue and in-range saturation and lightness, `hsl_to_hex`
returns a 7-character `#`-prefixed lowercase hex color, which in
particular satisfies the validator's color-format pattern. -/
theorem hsl_to_hex_wellformed (h s l : ℚ) (hs0 : 0 ≤ s) (hs1 : s ≤ 100)
    (hl0 : 0 ≤ l) (hl1 : l ≤ 100) :
    matchesLowerHex6 (hsl_to_hex h s l) = true ∧ (hsl_to_hex h s l).length = 7 ∧
      matchesColorPattern (hsl_to_hex h s l) = true := by
  have hs' : (0 : ℚ) ≤ s / 100 ∧ s / 100 ≤ 1 := by constructor <;> linarith
  have hl' : (0 : ℚ) ≤ l / 100 ∧ l / 100 ≤ 1 := by constructor <;> linarith
  rw [hsl_to_hex]
  split_ifs with hz
  · obtain ⟨c0, c1⟩ := pyInt_byte (l / 100) hl'.1 hl'.2
    exact rgb_to_hex_wellformed _ _ _ c0 c1 c0 c1 c0 c1
  · obtain ⟨hp0, hpq, hq1⟩ := hslPQ_bounds (s / 100) (l / 100) hs'.1 hs'.2 hl'.1 hl'.2
    have hb1 := hue2rgb_mem _ _ (h / 360 + 1 / 3) hp0 hpq hq1
    have hb2 := hue2rgb_mem _ _ (h / 360) hp0 hpq hq1
    have hb3 := hue2rgb_mem _ _ (h / 360 - 1 / 3) hp0 hpq hq1
    obtain ⟨d10, d11⟩ := pyInt_byte _ hb1.1 hb1.2
    obtain ⟨d20, d21⟩ := pyInt_byte _ hb2.1 hb2.2
    obtain ⟨d30, d31⟩ := pyInt_byte _ hb3.1 hb3.2
    exact rgb_to_hex_wellformed _ _ _ d10 d11 d20 d21 d30 d31

/-- C9 witness. -/
theorem hsl_to_hex_wellformed_witness :
    (0 : ℚ) ≤ 50 ∧ (50 : ℚ) ≤ 100 ∧ (0 : ℚ) ≤ 40 ∧ (40 : ℚ) ≤ 100 ∧
      matchesLowerHex6 (hsl_to_hex 200 50 40) = true :=
  ⟨by norm_num, by norm_num, by norm_num, by norm_num,
    (hsl_to_hex_wellformed 200 50 40 (by norm_num) (by norm_num) (by norm_num)
      (by norm_num)).1⟩

/-! ## Template resolution (C5) -/

theorem head?_append_cons {α : Type _} (l : List α) (a : α) (xs ys : List α) :
    (l ++ a :: xs).head? = (l ++ a :: ys).head? := by
  cases l <;> simp

theorem takeWhile_key (key xs : Str) (hk : '}' ∉ key) :
    (key ++ '}' :: xs).takeWhile (fun x => x ≠ '}') = key ∧
      (key ++ '}' :: xs).dropWhile (fun x => x ≠ '}') = '}' :: xs := by
  induction key with
  | nil => simp
  | cons c k ih =>
    have hc : c ≠ '}' := by
      intro h
      exact hk (by simp [h])
    have hk' : '}' ∉ k := by
      intro h
      exact hk (by simp [h])
    obtain ⟨t1, t2⟩ := ih hk'
    simp only [decide_not] at t1 t2
    simp [List.takeWhile_cons, List.dropWhile_cons, hc, t1, t2]

theorem resolve_template_fix (colors : List (Str × Str)) :
    ∀ s, hasOpenMarker s = false → resolve_template colors s = s := by
  intro s
  induction s with
  | nil =>
    intro _
    rw [resolve_template]
  | cons c t ih =>
    intro hm
    rw [hasOpenMarker] at hm
    simp only [Bool.or_eq_false_iff, Bool.and_eq_false_iff, decide_eq_false_iff_not] at hm
    rw [resolve_template]
    have hcond : ¬(c = '{' ∧ t.head? = some '{') := by
      rcases hm.1 with h | h <;> intro hc <;> [exact h hc.1; exact h hc.2]
    rw [if_neg hcond]
    rw [ih hm.2]

theorem resolve_template_subst (colors : List (Str × Str)) (pre key rest : Str)
    (hpre : hasOpenMarker (pre ++ ['{']) = false)
    (hkey : key ≠ []) (hkmem : '}' ∉ key) :
    resolve_template colors (pre ++ '{' :: '{' :: (key ++ '}' :: '}' :: rest)) =
      pre ++ ((dget colors key).getD ('{' :: '{' :: (key ++ ['}', '}'])) ++
        resolve_template colors rest) := by
  induction pre with
  | nil =>
    simp only [List.nil_append]
    rw [resolve_template]
    have hcond : ('{' : Char) = '{' ∧ ('{' :: (key ++ '}' :: '}' :: rest)).head? = some '{' := by
      simp
    rw [if_pos hcond]
    simp only [List.tail_cons]
    obtain ⟨t1, t2⟩ := takeWhile_key key ('}' :: rest) hkmem
    simp only [t1, t2]
    have hcond2 : key ≠ [] ∧ ('}' :: '}' :: rest).head? = some '}' ∧
        ('}' :: '}' :: rest).tail.head? = some '}' := by
      exact ⟨hkey, rfl, rfl⟩
    rw [if_pos hcond2]
    simp only [List.tail_cons]
    cases hd : dget colors key <;> simp [hd]
  | cons c p ih =>
    rw [List.cons_append] at hpre
    rw [hasOpenMarker] at hpre
    simp only [Bool.or_eq_false_iff, Bool.and_eq_false_iff, decide_eq_false_iff_not] at hpre
    rw [List.cons_append, resolve_template]
    have hh : (p ++ '{' :: '{' :: (key ++ '}' :: '}' :: rest)).head? = (p ++ ['{']).head? :=
      head?_append_cons p '{' ('{' :: (key ++ '}' :: '}' :: rest)) []
    have hcond : ¬(c = '{' ∧ (p ++ '{' :: '{' :: (key ++ '}' :: '}' :: rest)).head? = some '{') := by
      rw [hh]
      rcases hpre.1 with h | h <;> intro hc <;> [exact h hc.1; exact h hc.2]
    rw [if_neg hcond]
    rw [ih hpre.2]
    simp

/-- C5: template resolution is best-effort — at a well-formed placeholder
whose key is in the table the placeholder is replaced by the table value,
at one whose key is absent the literal placeholder text is kept, the text
before the placeholder is emitted unchanged and resolution continues after
it; and a string with no opening marker is returned verbatim (never an
error: `resolve_template` is total). -/
theorem resolve_template_best_effort (colors : List (Str × Str)) (pre key rest : Str)
    (hpre : hasOpenMarker (pre ++ ['{']) = false)
    (hkey : key ≠ []) (hkmem : '}' ∉ key) :
    resolve_template colors (pre ++ '{' :: '{' :: (key ++ '}' :: '}' :: rest)) =
      pre ++ ((dget colors key).getD ('{' :: '{' :: (key ++ ['}', '}'])) ++
        resolve_template colors rest) ∧
    (∀ s, hasOpenMarker s = false → resolve_template colors s = s) :=
  ⟨resolve_template_subst colors pre key rest hpre hkey hkmem,
   resolve_template_fix colors⟩

/-- C5 witness: the spec's own example
`resolveValue("\x7b\x7bbackground.deep\x7d\x7d-\x7b\x7bmissing.key\x7d\x7d", ...)`,
i.e. a present key followed by an absent one. -/
theorem resolve_template_best_effort_witness :
    hasOpenMarker ([] ++ ['{']) = false ∧
      "background.deep".toList ≠ [] ∧ '}' ∉ "background.deep".toList ∧
      resolve_template [("background.deep".toList, "#111111".toList)]
          ([] ++ '{' :: '{' :: ("background.deep".toList ++ '}' :: '}' ::
            ('-' :: '{' :: '{' :: ("missing.key".toList ++ '}' :: '}' :: [])))) =
        [] ++ ((dget [("background.deep".toList, "#111111".toList)] "background.deep".toList).getD
            ('{' :: '{' :: ("background.deep".toList ++ ['}', '}'])) ++
          resolve_template [("background.deep".toList, "#111111".toList)]
            ('-' :: '{' :: '{' :: ("missing.key".toList ++ '}' :: '}' :: []))) :=
  ⟨by decide, by decide, by decide,
   (resolve_template_best_effort [("background.deep".toList, "#111111".toList)]
      [] "background.deep".toList
      ('-' :: '{' :: '{' :: ("missing.key".toList ++ '}' :: '}' :: []))
      (by decide) (by decide) (by decide)).1⟩

/-! ## Color-format validation (C1) -/

theorem reachDict_str_iff (s' rel s : Str) :
    ReachDictStr (.str s') rel s ↔ (rel = [] ∧ s = s') := by
  constructor
  · intro h
    cases h
    exact ⟨rfl, rfl⟩
  · rintro ⟨rfl, rfl⟩
    exact .here s

theorem reachDict_obj_iff (fs : List (Str × Json)) (rel s : Str) :
    ReachDictStr (.obj fs) rel s ↔
      ∃ k v rel2, (k, v) ∈ fs ∧ rel = '.' :: k ++ rel2 ∧ ReachDictStr v rel2 s := by
  constructor
  · intro h
    cases h with
    | step hm hr => exact ⟨_, _, _, hm, rfl, hr⟩
  · rintro ⟨k, v, rel2, hm, rfl, hr⟩
    exact .step hm hr

theorem reachDict_null_iff (rel s : Str) : ¬ReachDictStr .null rel s := by
  intro h; cases h

theorem reachDict_bool_iff (b : Bool) (rel s : Str) : ¬ReachDictStr (.bool b) rel s := by
  intro h; cases h

theorem reachDict_num_iff (q : ℚ) (rel s : Str) : ¬ReachDictStr (.num q) rel s := by
  intro h; cases h

theorem reachDict_arr_iff (l : List Json) (rel s : Str) : ¬ReachDictStr (.arr l) rel s := by
  intro h; cases h

theorem find_colors_obj (fs : List (Str × Json)) (path : Str) :
    find_colors (Json.obj fs) path =
      fs.flatMap (fun kv => find_colors kv.2 (path ++ '.' :: kv.1)) := by
  rw [find_colors]
  simp only [List.flatMap_subtype, List.unattach_attach]

theorem find_colors_mem : ∀ (n : ℕ) (j : Json), sizeOf j ≤ n → ∀ (path p s : Str),
    ((p, s) ∈ find_colors j path ↔
      ∃ rel, p = path ++ rel ∧ ReachDictStr j rel s ∧ s.head? = some '#') := by
  intro n
  induction n with
  | zero =>
    intro j hj
    exfalso
    cases j <;> simp at hj
  | succ n ih =>
    intro j hj path p s
    cases j with
    | null => simp [find_colors, reachDict_null_iff]
    | bool b => simp [find_colors, reachDict_bool_iff]
    | num q => simp [find_colors, reachDict_num_iff]
    | arr l => simp [find_colors, reachDict_arr_iff]
    | str sv =>
      rw [find_colors]
      by_cases hs : sv.head? = some '#'
      · simp only [if_pos hs, List.mem_singleton, Prod.mk.injEq]
        constructor
        · rintro ⟨rfl, rfl⟩
          exact ⟨[], by simp, .here _, hs⟩
        · rintro ⟨rel, hp, hr, hh⟩
          obtain ⟨h1, h2⟩ := (reachDict_str_iff sv rel s).mp hr
          subst h1
          subst h2
          simp at hp
          exact ⟨by simp [hp], rfl⟩
      · simp only [if_neg hs, List.not_mem_nil, false_iff, not_exists]
        rintro rel ⟨hp, hr, hh⟩
        obtain ⟨h1, h2⟩ := (reachDict_str_iff sv rel s).mp hr
        subst h1
        subst h2
        exact hs hh
    | obj fs =>
      rw [find_colors_obj]
      simp only [List.mem_flatMap]
      constructor
      · rintro ⟨⟨k, v⟩, hkv, hmem⟩
        have hsz : sizeOf v ≤ n := by
          have := Json.sizeOf_lt_of_mem_obj hkv
          simp only at this
          omega
        obtain ⟨rel, hp, hr, hh⟩ := (ih v hsz (path ++ '.' :: k) p s).mp hmem
        exact ⟨'.' :: k ++ rel, by simp [hp], .step hkv hr, hh⟩
      · rintro ⟨rel, hp, hr, hh⟩
        obtain ⟨k, v, rel2, hkv, hrel, hr2⟩ := (reachDict_obj_iff fs rel s).mp hr
        have hsz : sizeOf v ≤ n := by
          have := Json.sizeOf_lt_of_mem_obj hkv
          simp only at this
          omega
        refine ⟨(k, v), hkv, ?_⟩
        apply (ih v hsz (path ++ '.' :: k) p s).mpr
        refine ⟨rel2, ?_, hr2, hh⟩
        subst hrel
        simp [hp]

/-- C1 (amended): the filtered violation list of `validate_colors` holds
exactly the strings reachable by the mapping-only walk that start with `#`
and fail the pattern; the validator returns the single success result when
that list is empty, the failure messages of its first ten entries
otherwise, and when there are at most ten violations every one of them is
reported with its path. -/
theorem validate_colors_spec (d : Json) :
    (∀ p s, (p, s) ∈ (find_colors d []).filter (fun pc => !matchesColorPattern pc.2) ↔
        (ReachDictStr d p s ∧ s.head? = some '#' ∧ matchesColorPattern s = false)) ∧
    ((find_colors d []).filter (fun pc => !matchesColorPattern pc.2) = [] →
        validate_colors d = [Result.success "All colors valid hex format".toList]) ∧
    ((find_colors d []).filter (fun pc => !matchesColorPattern pc.2) ≠ [] →
        validate_colors d =
          (((find_colors d []).filter (fun pc => !matchesColorPattern pc.2)).take 10).map
            (fun pc => Result.failure (colorFailMsg pc))) ∧
    (((find_colors d []).filter (fun pc => !matchesColorPattern pc.2)).length ≤ 10 →
        ∀ pc ∈ (find_colors d []).filter (fun pc => !matchesColorPattern pc.2),
          Result.failure (colorFailMsg pc) ∈ validate_colors d) := by
  refine ⟨?_, ?_, ?_, ?_⟩
  · intro p s
    rw [List.mem_filter]
    rw [find_colors_mem (sizeOf d) d le_rfl [] p s]
    constructor
    · rintro ⟨⟨rel, hp, hr, hh⟩, hb⟩
      simp only [List.nil_append] at hp
      subst hp
      simp only [Bool.not_eq_true'] at hb
      exact ⟨hr, hh, hb⟩
    · rintro ⟨hr, hh, hb⟩
      exact ⟨⟨p, by simp, hr, hh⟩, by simp [hb]⟩
  · intro h
    rw [validate_colors]
    simp [h]
  · intro h
    rw [validate_colors]
    cases hc : (find_colors d []).filter (fun pc => !matchesColorPattern pc.2) with
    | nil => exact absurd hc h
    | cons a t => simp [hc]
  · intro hlen pc hpc
    have hne : (find_colors d []).filter (fun pc => !matchesColorPattern pc.2) ≠ [] := by
      intro h
      rw [h] at hpc
      exact List.not_mem_nil pc hpc
    rw [validate_colors]
    cases hc : (find_colors d []).filter (fun pc => !matchesColorPattern pc.2) with
    | nil => exact absurd hc hne
    | cons a t =>
      rw [hc] at hlen hpc
      have htk : (a :: t).take 10 = a :: t := List.take_of_length_le hlen
      simp only [htk, List.map_cons]
      rcases List.mem_cons.mp hpc with rfl | hmem
      · simp
      · simp only [List.mem_cons, List.mem_map]
        exact Or.inr ⟨pc, hmem, rfl⟩

/-- C1 witness (for the amended theorem): on an artifact with no reachable
colors the violation list is empty and validation succeeds. -/
theorem validate_colors_spec_witness :
    (find_colors Json.null []).filter (fun pc => !matchesColorPattern pc.2) = [] ∧
      validate_colors Json.null = [Result.success "All colors valid hex format".toList] :=
  ⟨by simp [find_colors], (validate_colors_spec Json.null).2.1 (by simp [find_colors])⟩

/-- C1 counterexample to the claim as stated: in this artifact the string
`#gggggg` is reachable by the recursive walk (it sits inside a sequence),
starts with `#` and fails the pattern, yet color validation reports
success, because `find_colors` never descends into sequences. -/
theorem validate_colors_misses_arrays :
    (∃ s, SpecReachableStr
        (Json.obj [("players".toList, Json.arr [Json.str "#gggggg".toList])]) s ∧
        s.head? = some '#' ∧ matchesColorPattern s = false) ∧
      validate_colors (Json.obj [("players".toList, Json.arr [Json.str "#gggggg".toList])]) =
        [Result.success "All colors valid hex format".toList] := by
  constructor
  · refine ⟨"#gggggg".toList, ?_, by decide, by decide⟩
    exact SpecReachableStr.obj (List.mem_singleton.mpr rfl)
      (SpecReachableStr.arr (List.mem_singleton.mpr rfl) (SpecReachableStr.str _))
  · rw [validate_colors, find_colors_obj]
    simp [find_colors]

/-! ## Player-count validation (C8) -/

theorem mapMOpt_get {α β : Type _} (f : α → Option β) :
    ∀ (l : List α) (rs : List β), mapMOpt f l = some rs →
      rs.length = l.length ∧
        ∀ i a, l.get? i = some a → ∃ r, rs.get? i = some r ∧ f a = some r := by
  intro l
  induction l with
  | nil =>
    intro rs h
    rw [mapMOpt] at h
    cases h
    exact ⟨rfl, by intro i a h; simp at h⟩
  | cons a t ih =>
    intro rs h
    rw [mapMOpt] at h
    cases hfa : f a with
    | none => rw [hfa] at h; exact absurd h (by simp)
    | some b =>
      rw [hfa] at h
      cases hft : mapMOpt f t with
      | none => rw [hft] at h; exact absurd h (by simp)
      | some bs =>
        rw [hft] at h
        simp only [Option.some.injEq] at h
        subst h
        obtain ⟨hlen, hget⟩ := ih bs hft
        refine ⟨by simp [hlen], ?_⟩
        intro i x hx
        cases i with
        | zero =>
          simp only [List.get?] at hx ⊢
          cases hx
          exact ⟨b, rfl, hfa⟩
        | succ j =>
          simp only [List.get?] at hx ⊢
          exact hget j x hx

/-- C8: when player validation completes, it emits exactly one result per
variant; for a variant whose `players` style value is a list `ps` (or is
absent, in which case the empty-list default applies) the result is
`playerResult name ps.length`, which passes exactly when the list holds at
least 8 entries and otherwise is a failure whose message reports the
actual count. -/
theorem validate_players_spec (art : ThemeArtifact) (rs : List Result)
    (h : validate_players art = some rs) :
    rs.length = art.themes.length ∧
    (∀ i t, art.themes.get? i = some t →
      ∀ ps, (dget t.style "players".toList).getD (Json.arr []) = Json.arr ps →
        rs.get? i = some (playerResult t.name ps.length)) ∧
    (∀ nm n, (playerResult nm n).ok = true ↔ 8 ≤ n) ∧
    (∀ nm n, n < 8 → (playerResult nm n).message =
        "FAIL: ".toList ++ (nm ++ ": only ".toList ++ natRepr n ++ " players".toList)) := by
  rw [validate_players] at h
  obtain ⟨hlen, hget⟩ := mapMOpt_get _ art.themes rs h
  refine ⟨hlen, ?_, ?_, ?_⟩
  · intro i t ht ps hps
    obtain ⟨r, hr, hfr⟩ := hget i t ht
    rw [hps] at hfr
    rw [pyLen] at hfr
    simp only [Option.map_some'] at hfr
    rw [hr, ← hfr]
  · intro nm n
    rw [playerResult]
    split_ifs with h8
    · simp [Result.success, h8]
    · simp [Result.failure]
      omega
  · intro nm n hn
    rw [playerResult, if_neg (by omega)]
    rfl

/-- C8 witness: a variant with exactly 7 players fails, one with 8
passes. -/
theorem validate_players_spec_witness :
    validate_players
        (ThemeArtifact.mk [] [] []
          [Theme.mk "seven".toList "dark".toList
            [("players".toList, Json.arr (List.replicate 7 Json.null))],
           Theme.mk "eight".toList "dark".toList
            [("players".toList, Json.arr (List.replicate 8 Json.null))]]) =
      some [playerResult "seven".toList 7, playerResult "eight".toList 8] ∧
    (playerResult "seven".toList 7).ok = false ∧
    (playerResult "eight".toList 8).ok = true ∧
    [playerResult "seven".toList 7, playerResult "eight".toList 8].length = 2 :=
  ⟨by decide, by decide, by decide,
    (validate_players_spec
      (ThemeArtifact.mk [] [] []
        [Theme.mk "seven".toList "dark".toList
          [("players".toList, Json.arr (List.replicate 7 Json.null))],
         Theme.mk "eight".toList "dark".toList
          [("players".toList, Json.arr (List.replicate 8 Json.null))]])
      [playerResult "seven".toList 7, playerResult "eight".toList 8]
      (by decide)).1⟩

/-! ## Cross-variant consistency of the generated artifact (C3) -/

theorem mem_keys_dictSet {β : Type _} (d : List (Str × β)) (k0 : Str) (v : β) (k : Str) :
    k ∈ (dictSet d k0 v).map Prod.fst ↔ (k = k0 ∨ k ∈ d.map Prod.fst) := by
  induction d with
  | nil =>
    rw [dictSet]
    simp
  | cons kv t ih =>
    obtain ⟨k', v'⟩ := kv
    rw [dictSet]
    split_ifs with he
    · subst he
      simp only [List.map_cons, List.mem_cons]
      tauto
    · simp only [List.map_cons, List.mem_cons, ih]
      tauto

theorem mem_keys_foldl_dictSet (ps : List (Str × Json)) :
    ∀ (acc : List (Str × Json)) (k : Str),
      k ∈ (ps.foldl (fun d kv => dictSet d kv.1 kv.2) acc).map Prod.fst ↔
        (k ∈ acc.map Prod.fst ∨ k ∈ ps.map Prod.fst) := by
  induction ps with
  | nil => simp
  | cons kv t ih =>
    intro acc k
    rw [List.foldl_cons, ih, mem_keys_dictSet]
    simp only [List.map_cons, List.mem_cons]
    tauto

theorem mem_keys_mkDict (ps : List (Str × Json)) (k : Str) :
    k ∈ (mkDict ps).map Prod.fst ↔ k ∈ ps.map Prod.fst := by
  rw [mkDict, mem_keys_foldl_dictSet]
  simp

theorem mapMOpt_mem {α β : Type _} (f : α → Option β) :
    ∀ (l : List α) (rs : List β), mapMOpt f l = some rs →
      ∀ r ∈ rs, ∃ a ∈ l, f a = some r := by
  intro l
  induction l with
  | nil =>
    intro rs h
    rw [mapMOpt] at h
    cases h
    simp
  | cons a t ih =>
    intro rs h
    rw [mapMOpt] at h
    cases hfa : f a with
    | none => rw [hfa] at h; exact absurd h (by simp)
    | some b =>
      rw [hfa] at h
      cases hft : mapMOpt f t with
      | none => rw [hft] at h; exact absurd h (by simp)
      | some bs =>
        rw [hft] at h
        simp only [Option.some.injEq] at h
        subst h
        intro r hr
        rcases List.mem_cons.mp hr with rfl | hmem
        · exact ⟨a, List.mem_cons_self a t, hfa⟩
        · obtain ⟨x, hx, hfx⟩ := ih bs hft r hmem
          exact ⟨x, List.mem_cons_of_mem a hx, hfx⟩

theorem terminal_key_iff (term : List (Str × Json)) (k : Str) :
    (∃ k2, (∃ a ∈ term, a.1 = k2) ∧ k = "terminal.".toList ++ k2) ↔
      (∃ a ∈ term, "terminal.".toList ++ a.1 = k) := by
  constructor
  · rintro ⟨k2, ⟨a, ha, rfl⟩, rfl⟩
    exact ⟨a, ha, rfl⟩
  · rintro ⟨a, ha, hk⟩
    exact ⟨a.1, ⟨a, ha, rfl⟩, hk.symm⟩

theorem generate_variant_keys (base : BaseTemplate) (palette : Palette) (vk : Str)
    (t : Theme) (h : generate_variant base palette vk = some t) (k : Str) :
    k ∈ t.style.map Prod.fst ↔
      (k ∈ (["background".toList, "foreground".toList, "accent".toList, "border".toList,
          "border.focused".toList, "elevated_surface.background".toList,
          "surface.background".toList, "element.background".toList, "element.hover".toList,
          "element.active".toList, "element.selected".toList, "text".toList,
          "editor.background".toList, "editor.active_line.background".toList,
          "editor.line_number".toList] : List Str) ∨
        k ∈ base.ui.map Prod.fst ∨
        (∃ k2 ∈ base.terminal.map Prod.fst, k = "terminal.".toList ++ k2) ∨
        k = "players".toList ∨ k = "syntax".toList) := by
  rw [generate_variant] at h
  cases hcfg : dget base.variants vk with
  | none => rw [hcfg] at h; exact absurd h (by simp)
  | some config =>
    rw [hcfg] at h
    simp only at h
    split at h
    case _ bgDeep fgPrim synType borDef borFoc bgSurf bgElev bgAct heq =>
      simp only [Option.some.injEq] at h
      subst h
      simp only
      rw [mem_keys_mkDict]
      simp only [List.map_append, List.mem_append, List.map_cons, List.map_nil,
        List.mem_cons, List.not_mem_nil, or_false, List.map_map, List.mem_map,
        Function.comp_apply, terminal_key_iff]
      aesop
    case _ hne =>
      exact absurd h (by simp)

/-- C3: whenever `generate_theme` is defined on a base template and a
palette, every variant record of the produced artifact exposes the same
set of style keys as the first variant. -/
theorem generate_theme_consistent (base : BaseTemplate) (palette : Palette)
    (art : ThemeArtifact) (h : generate_theme base palette = some art) :
    ∀ t ∈ art.themes, ∀ t0, art.themes.head? = some t0 →
      ∀ k, (k ∈ t.style.map Prod.fst ↔ k ∈ t0.style.map Prod.fst) := by
  rw [generate_theme] at h
  cases hm : mapMOpt (generate_variant base palette) VARIANT_KEYS with
  | none => rw [hm] at h; exact absurd h (by simp)
  | some ts =>
    rw [hm] at h
    simp only [Option.map_some', Option.some.injEq] at h
    subst h
    intro t ht t0 ht0 k
    have hmem := mapMOpt_mem _ _ _ hm
    obtain ⟨vk, _, hvk⟩ := hmem t ht
    obtain ⟨vk0, _, hvk0⟩ := hmem t0 (List.mem_of_mem_head? ht0)
    rw [generate_variant_keys base palette vk t hvk k]
    rw [generate_variant_keys base palette vk0 t0 hvk0 k]

/-- C3 witness: on a concrete base template and palette, `generate_theme`
succeeds and the second variant exposes the key `background` exactly when
the first one does. -/
theorem generate_theme_consistent_witness :
    generate_theme sampleBase samplePalette =
      some ((generate_theme sampleBase samplePalette).getD
        (ThemeArtifact.mk [] [] [] [])) ∧
    ("background".toList ∈
        (((generate_theme sampleBase samplePalette).getD
          (ThemeArtifact.mk [] [] [] [])).themes.getD 1 (Theme.mk [] [] [])).style.map
            Prod.fst ↔
      "background".toList ∈
        (((generate_theme sampleBase samplePalette).getD
          (ThemeArtifact.mk [] [] [] [])).themes.getD 0 (Theme.mk [] [] [])).style.map
            Prod.fst) :=
  ⟨rfl,
   generate_theme_consistent sampleBase samplePalette
     ((generate_theme sampleBase samplePalette).getD (ThemeArtifact.mk [] [] [] [])) rfl
     (((generate_theme sampleBase samplePalette).getD
        (ThemeArtifact.mk [] [] [] [])).themes.getD 1 (Theme.mk [] [] []))
     (by exact List.Mem.tail _ (List.Mem.head _))
     (((generate_theme sampleBase samplePalette).getD
        (ThemeArtifact.mk [] [] [] [])).themes.getD 0 (Theme.mk [] [] []))
     rfl
     "background".toList⟩

/-! ## The contrast search (C2, C4): basic bounds -/

theorem pyMax_eq (a b : ℚ) : pyMax a b = max a b := by
  rw [pyMax, max_def]

theorem pyMin_eq (a b : ℚ) : pyMin a b = min a b := by
  rw [pyMin, min_def]
  split_ifs with h1 h2 h2
  · exact le_antisymm h1 h2
  · rfl
  · rfl
  · linarith

theorem parseHexAux_nil (acc : ℕ) : parseHexAux [] acc = some acc := rfl

theorem parseHexAux_cons (c : Char) (t : Str) (acc : ℕ) :
    parseHexAux (c :: t) acc =
      match hexDigitVal c with
      | some v => parseHexAux t (acc * 16 + v)
      | none => none := rfl

theorem clamp_mem (x : ℚ) : 0 ≤ pyMax 0 (pyMin 100 x) ∧ pyMax 0 (pyMin 100 x) ≤ 100 := by
  rw [pyMax_eq, pyMin_eq]
  constructor
  · exact le_max_left 0 _
  · apply max_le (by norm_num)
    exact min_le_left _ _

theorem hexDigitVal_le (c : Char) (v : ℕ) (h : hexDigitVal c = some v) : v ≤ 15 := by
  rw [hexDigitVal] at h
  split_ifs at h <;> simp only [Option.some.injEq] at h <;> omega

theorem parseHex_le (l : Str) (hl : l.length ≤ 2) (n : ℕ) (hp : parseHex l = some n) :
    n ≤ 255 := by
  match l, hl with
  | [], _ => rw [parseHex] at hp; simp at hp
  | [a], _ =>
    rw [parseHex, if_neg (by simp : ¬([a] : Str) = [])] at hp
    cases ha : hexDigitVal a with
    | none =>
      simp only [parseHexAux_cons, ha] at hp
      exact Option.noConfusion hp
    | some v =>
      simp only [parseHexAux_cons, ha, parseHexAux_nil, Option.some.injEq] at hp
      have := hexDigitVal_le a v ha
      omega
  | [a, b], _ =>
    rw [parseHex, if_neg (by simp : ¬([a, b] : Str) = [])] at hp
    cases ha : hexDigitVal a with
    | none =>
      simp only [parseHexAux_cons, ha] at hp
      exact Option.noConfusion hp
    | some v =>
      cases hb : hexDigitVal b with
      | none =>
        simp only [parseHexAux_cons, ha, hb] at hp
        exact Option.noConfusion hp
      | some w =>
        simp only [parseHexAux_cons, ha, hb, parseHexAux_nil, Option.some.injEq] at hp
        have h1 := hexDigitVal_le a v ha
        have h2 := hexDigitVal_le b w hb
        omega

theorem hex_to_rgb_le (s : Str) (r g b : ℕ) (h : hex_to_rgb s = some (r, g, b)) :
    r ≤ 255 ∧ g ≤ 255 ∧ b ≤ 255 := by
  rw [hex_to_rgb] at h
  split at h
  case _ x y z hx hy hz =>
    simp only [Option.some.injEq, Prod.mk.injEq] at h
    obtain ⟨rfl, rfl, rfl⟩ := h
    refine ⟨?_, ?_, ?_⟩
    · exact parseHex_le _ (by simp [List.length_take]) _ hx
    · exact parseHex_le _ (by simp [List.length_take]) _ hy
    · exact parseHex_le _ (by simp [List.length_take]) _ hz
  case _ =>
    exact Option.noConfusion h

theorem hslOfRgb_range (rgb : ℕ × ℕ × ℕ) (hr : rgb.1 ≤ 255) (hg : rgb.2.1 ≤ 255)
    (hb : rgb.2.2 ≤ 255) :
    0 ≤ (hslOfRgb rgb).2.1 ∧ (hslOfRgb rgb).2.1 ≤ 100 ∧
      0 ≤ (hslOfRgb rgb).2.2 ∧ (hslOfRgb rgb).2.2 ≤ 100 := by
  obtain ⟨r, g, b⟩ := rgb
  simp only at hr hg hb
  have hr0 : (0 : ℚ) ≤ (r : ℚ) / 255 := by positivity
  have hg0 : (0 : ℚ) ≤ (g : ℚ) / 255 := by positivity
  have hb0 : (0 : ℚ) ≤ (b : ℚ) / 255 := by positivity
  have hr1 : (r : ℚ) / 255 ≤ 1 := by
    rw [div_le_one (by norm_num : (0 : ℚ) < 255)]
    exact_mod_cast hr
  have hg1 : (g : ℚ) / 255 ≤ 1 := by
    rw [div_le_one (by norm_num : (0 : ℚ) < 255)]
    exact_mod_cast hg
  have hb1 : (b : ℚ) / 255 ≤ 1 := by
    rw [div_le_one (by norm_num : (0 : ℚ) < 255)]
    exact_mod_cast hb
  rw [hslOfRgb]
  simp only [pyMax_eq, pyMin_eq]
  set r' := (r : ℚ) / 255 with hr'
  set g' := (g : ℚ) / 255 with hg'
  set b' := (b : ℚ) / 255 with hb'
  set mx := max r' (max g' b') with hmx
  set mn := min r' (min g' b') with hmn
  have hmx1 : mx ≤ 1 := max_le hr1 (max_le hg1 hb1)
  have hmn0 : 0 ≤ mn := le_min hr0 (le_min hg0 hb0)
  have hmnmx : mn ≤ mx := le_trans (min_le_left _ _) (le_max_left _ _)
  have hmn1 : mn ≤ 1 := le_trans hmnmx hmx1
  have hmx0 : 0 ≤ mx := le_trans hmn0 hmnmx
  by_cases heq : mx = mn
  · rw [if_pos heq]
    refine ⟨le_refl 0, by norm_num, by nlinarith, by nlinarith⟩
  · rw [if_neg heq]
    dsimp only
    have hlt : mn < mx := lt_of_le_of_ne hmnmx (fun hc => heq hc.symm)
    by_cases hlh : (mx + mn) / 2 > 1 / 2
    · rw [if_pos hlh]
      have hden : 0 < 2 - mx - mn := by nlinarith
      have hs0 : (0 : ℚ) ≤ (mx - mn) / (2 - mx - mn) :=
        div_nonneg (by linarith) (le_of_lt hden)
      have hs1 : (mx - mn) / (2 - mx - mn) ≤ 1 := by
        rw [div_le_one hden]
        nlinarith
      refine ⟨by nlinarith, by nlinarith, by nlinarith, by nlinarith⟩
    · rw [if_neg hlh]
      have hden : 0 < mx + mn := by nlinarith
      have hs0 : (0 : ℚ) ≤ (mx - mn) / (mx + mn) :=
        div_nonneg (by linarith) (le_of_lt hden)
      have hs1 : (mx - mn) / (mx + mn) ≤ 1 := by
        rw [div_le_one hden]
        nlinarith
      refine ⟨by nlinarith, by nlinarith, by nlinarith, by nlinarith⟩

theorem hue2rgb_const (c t : ℚ) : hue2rgb c c t = c := by
  rw [hue2rgb]
  split_ifs <;> ring

theorem hsl_to_hex_hundred (h s : ℚ) : hsl_to_hex h s 100 = "#ffffff".toList := by
  have h255 : pyInt ((100 : ℚ) / 100 * 255) = 255 := by
    rw [pyInt, if_pos (by norm_num)]
    norm_num
  rw [hsl_to_hex]
  split_ifs with hz
  · rw [h255]
    decide
  · have hq : hslQ (s / 100) ((100 : ℚ) / 100) = 1 := by
      rw [hslQ]
      norm_num
    have hp : hslP (s / 100) ((100 : ℚ) / 100) = 1 := by
      rw [hslP, hq]
      norm_num
    rw [hq, hp, hue2rgb_const, hue2rgb_const, hue2rgb_const]
    have : pyInt ((1 : ℚ) * 255) = 255 := by
      rw [pyInt, if_pos (by norm_num)]
      norm_num
    rw [this]
    decide

theorem hsl_to_hex_zero (h s : ℚ) : hsl_to_hex h s 0 = "#000000".toList := by
  have h0 : pyInt ((0 : ℚ) / 100 * 255) = 0 := by
    rw [pyInt, if_pos (by norm_num)]
    norm_num
  rw [hsl_to_hex]
  split_ifs with hz
  · rw [h0]
    decide
  · have hq : hslQ (s / 100) ((0 : ℚ) / 100) = 0 := by
      rw [hslQ]
      norm_num
    have hp : hslP (s / 100) ((0 : ℚ) / 100) = 0 := by
      rw [hslP, hq]
      norm_num
    rw [hq, hp, hue2rgb_const, hue2rgb_const, hue2rgb_const]
    have : pyInt ((0 : ℚ) * 255) = 0 := by
      rw [pyInt, if_pos (by norm_num)]
      norm_num
    rw [this]
    decide

theorem iterLight_up : ∀ (n : ℕ) (l : ℚ), 0 ≤ l → l ≤ 100 →
    iterLight 1 l n = min 100 (l + n) := by
  intro n
  induction n with
  | zero =>
    intro l h0 h1
    rw [iterLight]
    rw [min_eq_right (by push_cast; linarith)]
    push_cast
    ring
  | succ n ih =>
    intro l h0 h1
    rw [iterLight]
    have hc : pyMax 0 (pyMin 100 (l + 1)) = min 100 (l + 1) := by
      rw [pyMax_eq, pyMin_eq, max_eq_right]
      exact le_min (by norm_num) (by linarith)
    rw [hc]
    rw [ih (min 100 (l + 1)) (le_min (by norm_num) (by linarith)) (min_le_left _ _)]
    have hn : (0 : ℚ) ≤ (n : ℚ) := by positivity
    rcases le_total (l + 1) 100 with hle | hge
    · rw [min_eq_right hle]
      congr 1
      push_cast
      ring
    · rw [min_eq_left hge]
      rw [min_eq_left (by linarith), min_eq_left (by push_cast; linarith)]

theorem iterLight_down : ∀ (n : ℕ) (l : ℚ), 0 ≤ l → l ≤ 100 →
    iterLight (-1) l n = max 0 (l - n) := by
  intro n
  induction n with
  | zero =>
    intro l h0 h1
    rw [iterLight]
    rw [max_eq_right (by push_cast; linarith)]
    push_cast
    ring
  | succ n ih =>
    intro l h0 h1
    rw [iterLight]
    have hc : pyMax 0 (pyMin 100 (l + -1)) = max 0 (l - 1) := by
      rw [pyMax_eq, pyMin_eq, min_eq_right (by linarith)]
      congr 1
      ring
    rw [hc]
    rw [ih (max 0 (l - 1)) (le_max_left _ _) (max_le (by norm_num) (by linarith))]
    have hn : (0 : ℚ) ≤ (n : ℚ) := by positivity
    rcases le_total 0 (l - 1) with hle | hge
    · rw [max_eq_right hle]
      congr 1
      push_cast
      ring
    · rw [max_eq_left hge]
      rw [max_eq_left (by linarith), max_eq_left (by push_cast; linarith)]

theorem hsl_to_hex_parses (h s l : ℚ) (hs0 : 0 ≤ s) (hs1 : s ≤ 100)
    (hl0 : 0 ≤ l) (hl1 : l ≤ 100) :
    ∃ v : ℕ × ℕ × ℕ, hex_to_rgb (hsl_to_hex h s l) = some v := by
  have hs' : (0 : ℚ) ≤ s / 100 ∧ s / 100 ≤ 1 := by constructor <;> linarith
  have hl' : (0 : ℚ) ≤ l / 100 ∧ l / 100 ≤ 1 := by constructor <;> linarith
  rw [hsl_to_hex]
  split_ifs with hz
  · obtain ⟨c0, c1⟩ := pyInt_byte (l / 100) hl'.1 hl'.2
    have hx : pyInt (l / 100 * 255) = ((pyInt (l / 100 * 255)).toNat : ℤ) :=
      (Int.toNat_of_nonneg c0).symm
    rw [hx]
    exact ⟨_, hex_rgb_roundtrip_core _ _ _ (by omega) (by omega) (by omega)⟩
  · obtain ⟨hp0, hpq, hq1⟩ := hslPQ_bounds (s / 100) (l / 100) hs'.1 hs'.2 hl'.1 hl'.2
    have hb1 := hue2rgb_mem _ _ (h / 360 + 1 / 3) hp0 hpq hq1
    have hb2 := hue2rgb_mem _ _ (h / 360) hp0 hpq hq1
    have hb3 := hue2rgb_mem _ _ (h / 360 - 1 / 3) hp0 hpq hq1
    obtain ⟨d10, d11⟩ := pyInt_byte _ hb1.1 hb1.2
    obtain ⟨d20, d21⟩ := pyInt_byte _ hb2.1 hb2.2
    obtain ⟨d30, d31⟩ := pyInt_byte _ hb3.1 hb3.2
    rw [(Int.toNat_of_nonneg d10).symm, (Int.toNat_of_nonneg d20).symm,
      (Int.toNat_of_nonneg d30).symm]
    exact ⟨_, hex_rgb_roundtrip_core _ _ _ (by omega) (by omega) (by omega)⟩

theorem contrast_ratio_inv (g24 : ℚ → ℚ) (c1 c2 : Str) (cr : ℚ)
    (h : contrast_ratio g24 c1 c2 = some cr) :
    ∃ v1 v2, hex_to_rgb c1 = some v1 ∧ hex_to_rgb c2 = some v2 := by
  rw [ contrast_ratio] at h
  split at h
  case _ v1 v2 h1 h2 => exact ⟨v1, v2, h1, h2⟩
  case _ => exact Option.noConfusion h

theorem ecLoop_spec (g24 : ℚ → ℚ) (bg : Str) (r h s step : ℚ) :
    ∀ (n : ℕ) (l : ℚ) (c : Str), ecLoop g24 bg r h s step l n = some c →
      ((∃ cr, contrast_ratio g24 c bg = some cr ∧ r ≤ cr) ∨
        (c = hsl_to_hex h s (iterLight step l n) ∧
          (0 < n → ∃ cr, contrast_ratio g24 c bg = some cr ∧ cr < r))) := by
  intro n
  induction n with
  | zero =>
    intro l c hc
    rw [ecLoop] at hc
    simp only [Option.some.injEq] at hc
    subst hc
    exact Or.inr ⟨by rw [iterLight], by intro hn; exact absurd hn (by norm_num)⟩
  | succ n ih =>
    intro l c hc
    rw [ecLoop] at hc
    cases hcr : contrast_ratio g24 (hsl_to_hex h s (pyMax 0 (pyMin 100 (l + step)))) bg with
    | none => rw [hcr] at hc; exact Option.noConfusion hc
    | some cr =>
      rw [hcr] at hc
      dsimp only at hc
      by_cases hge : r ≤ cr
      · rw [if_pos hge] at hc
        simp only [Option.some.injEq] at hc
        subst hc
        exact Or.inl ⟨cr, hcr, hge⟩
      · rw [if_neg hge] at hc
        rcases ih (pyMax 0 (pyMin 100 (l + step))) c hc with hl | ⟨hceq, himp⟩
        · exact Or.inl hl
        · refine Or.inr ⟨by rw [iterLight]; exact hceq, fun _ => ?_⟩
          cases n with
          | zero =>
            rw [iterLight] at hceq
            subst hceq
            exact ⟨cr, hcr, lt_of_not_le hge⟩
          | succ m => exact himp (Nat.succ_pos m)

theorem ecLoop_some (g24 : ℚ → ℚ) (bg : Str) (r h s step : ℚ)
    (hbg : ∃ v, hex_to_rgb bg = some v) (hs0 : 0 ≤ s) (hs1 : s ≤ 100) :
    ∀ (n : ℕ) (l : ℚ), 0 ≤ l → l ≤ 100 → ∃ c, ecLoop g24 bg r h s step l n = some c := by
  obtain ⟨bv, hbv⟩ := hbg
  intro n
  induction n with
  | zero =>
    intro l _ _
    exact ⟨hsl_to_hex h s l, by rw [ecLoop]⟩
  | succ n ih =>
    intro l hl0 hl1
    obtain ⟨hc0, hc1⟩ := clamp_mem (l + step)
    obtain ⟨cv, hcv⟩ := hsl_to_hex_parses h s (pyMax 0 (pyMin 100 (l + step))) hs0 hs1 hc0 hc1
    have hcr : contrast_ratio g24 (hsl_to_hex h s (pyMax 0 (pyMin 100 (l + step)))) bg =
        some ((pyMax (luminance g24 cv) (luminance g24 bv) + 0.05) /
          (pyMin (luminance g24 cv) (luminance g24 bv) + 0.05)) := by
      rw [ contrast_ratio, hcv, hbv]
    rw [ecLoop]
    simp only [hcr]
    by_cases hge : r ≤ (pyMax (luminance g24 cv) (luminance g24 bv) + 0.05) /
        (pyMin (luminance g24 cv) (luminance g24 bv) + 0.05)
    · rw [if_pos hge]
      exact ⟨_, rfl⟩
    · rw [if_neg hge]
      exact ih (pyMax 0 (pyMin 100 (l + step))) hc0 hc1

theorem ecLoop_fixed (g24 : ℚ → ℚ) (bg : Str) (r h s step L cw : ℚ)
    (hfix : pyMax 0 (pyMin 100 (L + step)) = L)
    (hcr : contrast_ratio g24 (hsl_to_hex h s L) bg = some cw)
    (hlt : ¬r ≤ cw) :
    ∀ n, ecLoop g24 bg r h s step L n = some (hsl_to_hex h s L) := by
  intro n
  induction n with
  | zero => rw [ecLoop]
  | succ n ih =>
    rw [ecLoop]
    simp only [hfix, hcr]
    rw [if_neg hlt]
    exact ih

theorem hslOfRgb_white : hslOfRgb (255, 255, 255) = (0, 0, 100) := by
  norm_num [hslOfRgb, pyMax, pyMin]

theorem hslOfRgb_black : hslOfRgb (0, 0, 0) = (0, 0, 0) := by
  norm_num [hslOfRgb, pyMax, pyMin]

theorem clamp_up_fixed : pyMax 0 (pyMin 100 ((100 : ℚ) + 1)) = 100 := by
  norm_num [pyMax, pyMin]

theorem clamp_down_fixed : pyMax 0 (pyMin 100 ((0 : ℚ) + -1)) = 0 := by
  norm_num [pyMax, pyMin]

/-- C2: `ensure_contrast` is idempotent — applying it again to its own
output with the same background, ratio and direction returns that output
unchanged (on parsable colors; `some` wraps the source's return, `none`
being a raised exception). -/
theorem ensure_contrast_idempotent (g24 : ℚ → ℚ) (fg bg : Str) (r : ℚ) (d : Str)
    (hfg : validHex fg = true) (hbg : validHex bg = true) :
    ∃ c, ensure_contrast g24 fg bg r d = some c ∧ ensure_contrast g24 c bg r d = some c := by
  rw [validHex, Option.isSome_iff_exists] at hfg hbg
  obtain ⟨fv, hfv⟩ := hfg
  obtain ⟨bv, hbv⟩ := hbg
  have hfle := hex_to_rgb_le fg fv.1 fv.2.1 fv.2.2 hfv
  have hcr : contrast_ratio g24 fg bg =
      some ((pyMax (luminance g24 fv) (luminance g24 bv) + 0.05) /
        (pyMin (luminance g24 fv) (luminance g24 bv) + 0.05)) := by
    rw [ contrast_ratio, hfv, hbv]
  set cr0 := (pyMax (luminance g24 fv) (luminance g24 bv) + 0.05) /
      (pyMin (luminance g24 fv) (luminance g24 bv) + 0.05) with hcr0
  have hhsl : hex_to_hsl fg = some (hslOfRgb fv) := by
    rw [hex_to_hsl, hfv]
    rfl
  obtain ⟨hs0, hs1, hl0, hl1⟩ := hslOfRgb_range fv hfle.1 hfle.2.1 hfle.2.2
  by_cases hge : r ≤ cr0
  · refine ⟨fg, ?_, ?_⟩ <;> (simp only [ensure_contrast, hcr, hhsl, hbv]; rw [if_pos hge])
  · cases hgl : decide (d = "lighter".toList ∨ (d = "auto".toList ∧ luminance g24 bv < 1 / 2)) with
    | true =>
      obtain ⟨c, hc⟩ := ecLoop_some g24 bg r (hslOfRgb fv).1 (hslOfRgb fv).2.1 1
        ⟨bv, hbv⟩ hs0 hs1 100 (hslOfRgb fv).2.2 hl0 hl1
      refine ⟨c, ?_, ?_⟩
      · simp only [ensure_contrast, hcr, hhsl, hbv]
        rw [if_neg hge, hgl, if_pos rfl]
        exact hc
      · rcases ecLoop_spec g24 bg r _ _ 1 100 _ c hc with ⟨cr, hcrc, hrge⟩ | ⟨hceq, himp⟩
        · obtain ⟨v1, v2, hv1, hv2⟩ := contrast_ratio_inv g24 c bg cr hcrc
          have hchsl : hex_to_hsl c = some (hslOfRgb v1) := by
            rw [hex_to_hsl, hv1]
            rfl
          simp only [ensure_contrast, hcrc, hchsl, hbv]
          rw [if_pos hrge]
        · obtain ⟨cw, hcw, hlt2⟩ := himp (by norm_num)
          rw [iterLight_up 100 _ hl0 hl1,
            min_eq_left (by push_cast; linarith), hsl_to_hex_hundred] at hceq
          subst hceq
          have hwv : hex_to_rgb ("#ffffff".toList) = some (255, 255, 255) := by decide
          have hwhsl : hex_to_hsl ("#ffffff".toList) = some (0, 0, 100) := by
            rw [hex_to_hsl, hwv]
            simp only [Option.map_some']
            rw [hslOfRgb_white]
          simp only [ensure_contrast, hcw, hwhsl, hbv]
          rw [if_neg (not_le.mpr hlt2), hgl, if_pos rfl]
          have hfix := ecLoop_fixed g24 bg r 0 0 1 100 cw clamp_up_fixed
            (by rw [hsl_to_hex_hundred]; exact hcw) (not_le.mpr hlt2) 100
          rw [hsl_to_hex_hundred] at hfix
          exact hfix
    | false =>
      obtain ⟨c, hc⟩ := ecLoop_some g24 bg r (hslOfRgb fv).1 (hslOfRgb fv).2.1 (-1)
        ⟨bv, hbv⟩ hs0 hs1 100 (hslOfRgb fv).2.2 hl0 hl1
      refine ⟨c, ?_, ?_⟩
      · simp only [ensure_contrast, hcr, hhsl, hbv]
        rw [if_neg hge, hgl, if_neg (by simp)]
        exact hc
      · rcases ecLoop_spec g24 bg r _ _ (-1) 100 _ c hc with ⟨cr, hcrc, hrge⟩ | ⟨hceq, himp⟩
        · obtain ⟨v1, v2, hv1, hv2⟩ := contrast_ratio_inv g24 c bg cr hcrc
          have hchsl : hex_to_hsl c = some (hslOfRgb v1) := by
            rw [hex_to_hsl, hv1]
            rfl
          simp only [ensure_contrast, hcrc, hchsl, hbv]
          rw [if_pos hrge]
        · obtain ⟨cw, hcw, hlt2⟩ := himp (by norm_num)
          rw [iterLight_down 100 _ hl0 hl1,
            max_eq_left (by push_cast; linarith), hsl_to_hex_zero] at hceq
          subst hceq
          have hbkv : hex_to_rgb ("#000000".toList) = some (0, 0, 0) := by decide
          have hbkhsl : hex_to_hsl ("#000000".toList) = some (0, 0, 0) := by
            rw [hex_to_hsl, hbkv]
            simp only [Option.map_some']
            rw [hslOfRgb_black]
          simp only [ensure_contrast, hcw, hbkhsl, hbv]
          rw [if_neg (not_le.mpr hlt2), hgl, if_neg (by simp)]
          have hfix := ecLoop_fixed g24 bg r 0 0 (-1) 0 cw clamp_down_fixed
            (by rw [hsl_to_hex_zero]; exact hcw) (not_le.mpr hlt2) 100
          rw [hsl_to_hex_zero] at hfix
          exact hfix

/-- C2 witness. -/
theorem ensure_contrast_idempotent_witness :
    validHex "#123456".toList = true ∧ validHex "#000000".toList = true ∧
      ∃ c, ensure_contrast (fun x => x) "#123456".toList "#000000".toList 30 "auto".toList =
          some c ∧
        ensure_contrast (fun x => x) c "#000000".toList 30 "auto".toList = some c :=
  ⟨by decide, by decide,
   ensure_contrast_idempotent (fun x => x) "#123456".toList "#000000".toList 30 "auto".toList
     (by decide) (by decide)⟩

/-- C4: `ensure_contrast` never raises on parsable colors; it returns the
foreground unchanged whenever it already meets the ratio, and its result
either meets the minimum contrast ratio against the background or is the
color at the clamped lightness extreme (lightness driven to 0 or 100)
after the 100-iteration search exhausts. -/
theorem ensure_contrast_spec (g24 : ℚ → ℚ) (fg bg : Str) (r : ℚ) (d : Str)
    (hfg : validHex fg = true) (hbg : validHex bg = true) :
    ∃ c, ensure_contrast g24 fg bg r d = some c ∧
      ((∃ cr, contrast_ratio g24 c bg = some cr ∧ r ≤ cr) ∨
        (∃ h0 s0 l0, hex_to_hsl fg = some (h0, s0, l0) ∧
          (c = hsl_to_hex h0 s0 0 ∨ c = hsl_to_hex h0 s0 100))) ∧
      (∀ cr0, contrast_ratio g24 fg bg = some cr0 → r ≤ cr0 → c = fg) := by
  rw [validHex, Option.isSome_iff_exists] at hfg hbg
  obtain ⟨fv, hfv⟩ := hfg
  obtain ⟨bv, hbv⟩ := hbg
  have hfle := hex_to_rgb_le fg fv.1 fv.2.1 fv.2.2 hfv
  have hcr : contrast_ratio g24 fg bg =
      some ((pyMax (luminance g24 fv) (luminance g24 bv) + 0.05) /
        (pyMin (luminance g24 fv) (luminance g24 bv) + 0.05)) := by
    rw [ contrast_ratio, hfv, hbv]
  set cr0 := (pyMax (luminance g24 fv) (luminance g24 bv) + 0.05) /
      (pyMin (luminance g24 fv) (luminance g24 bv) + 0.05) with hcr0
  have hhsl : hex_to_hsl fg = some (hslOfRgb fv) := by
    rw [hex_to_hsl, hfv]
    rfl
  obtain ⟨hs0, hs1, hl0, hl1⟩ := hslOfRgb_range fv hfle.1 hfle.2.1 hfle.2.2
  by_cases hge : r ≤ cr0
  · refine ⟨fg, ?_, Or.inl ⟨cr0, hcr, hge⟩, fun _ _ _ => rfl⟩
    simp only [ensure_contrast, hcr, hhsl, hbv]
    rw [if_pos hge]
  · have hnone : ∀ cr0' : ℚ, contrast_ratio g24 fg bg = some cr0' → r ≤ cr0' → False := by
      intro cr0' hcr0' hge'
      rw [hcr] at hcr0'
      injection hcr0' with heq
      subst heq
      exact hge hge'
    cases hgl : decide (d = "lighter".toList ∨ (d = "auto".toList ∧ luminance g24 bv < 1 / 2)) with
    | true =>
      obtain ⟨c, hc⟩ := ecLoop_some g24 bg r (hslOfRgb fv).1 (hslOfRgb fv).2.1 1
        ⟨bv, hbv⟩ hs0 hs1 100 (hslOfRgb fv).2.2 hl0 hl1
      refine ⟨c, ?_, ?_, fun cr0' h1 h2 => absurd (hnone cr0' h1 h2) (fun hf => hf)⟩
      · simp only [ensure_contrast, hcr, hhsl, hbv]
        rw [if_neg hge, hgl, if_pos rfl]
        exact hc
      · rcases ecLoop_spec g24 bg r _ _ 1 100 _ c hc with ⟨cr, hcrc, hrge⟩ | ⟨hceq, _⟩
        · exact Or.inl ⟨cr, hcrc, hrge⟩
        · refine Or.inr ⟨(hslOfRgb fv).1, (hslOfRgb fv).2.1, (hslOfRgb fv).2.2, hhsl, Or.inr ?_⟩
          rw [hceq, iterLight_up 100 _ hl0 hl1, min_eq_left (by push_cast; linarith)]
    | false =>
      obtain ⟨c, hc⟩ := ecLoop_some g24 bg r (hslOfRgb fv).1 (hslOfRgb fv).2.1 (-1)
        ⟨bv, hbv⟩ hs0 hs1 100 (hslOfRgb fv).2.2 hl0 hl1
      refine ⟨c, ?_, ?_, fun cr0' h1 h2 => absurd (hnone cr0' h1 h2) (fun hf => hf)⟩
      · simp only [ensure_contrast, hcr, hhsl, hbv]
        rw [if_neg hge, hgl, if_neg (by simp)]
        exact hc
      · rcases ecLoop_spec g24 bg r _ _ (-1) 100 _ c hc with ⟨cr, hcrc, hrge⟩ | ⟨hceq, _⟩
        · exact Or.inl ⟨cr, hcrc, hrge⟩
        · refine Or.inr ⟨(hslOfRgb fv).1, (hslOfRgb fv).2.1, (hslOfRgb fv).2.2, hhsl, Or.inl ?_⟩
          rw [hceq, iterLight_down 100 _ hl0 hl1, max_eq_left (by push_cast; linarith)]

/-- C4 witness. -/
theorem ensure_contrast_spec_witness :
    validHex "#ff0000".toList = true ∧ validHex "#ffffff".toList = true ∧
      ∃ c, ensure_contrast (fun x => x * x) "#ff0000".toList "#ffffff".toList 4.5 "auto".toList =
          some c ∧
        ((∃ cr, contrast_ratio (fun x => x * x) c "#ffffff".toList = some cr ∧ (4.5 : ℚ) ≤ cr) ∨
          (∃ h0 s0 l0, hex_to_hsl "#ff0000".toList = some (h0, s0, l0) ∧
            (c = hsl_to_hex h0 s0 0 ∨ c = hsl_to_hex h0 s0 100))) ∧
        (∀ cr0, contrast_ratio (fun x => x * x) "#ff0000".toList "#ffffff".toList = some cr0 →
          (4.5 : ℚ) ≤ cr0 → c = "#ff0000".toList) :=
  ⟨by decide, by decide,
   ensure_contrast_spec (fun x => x * x) "#ff0000".toList "#ffffff".toList 4.5 "auto".toList
     (by decide) (by decide)⟩
